import Mathlib

/-!
Shallow embedding of the paginated message-iteration engine of
`telethon/_client/messages.py`: the message range iterator (`_MessagesIter`),
the id-lookup iterator (`_IDsIter`) and the request variants they build.
Network effects are made explicit: the transport's replies are inputs, and
the requests a step would send are returned as data.
-/

namespace Telethon

/-- `_MAX_CHUNK_SIZE = 100`. -/
def maxChunkSize : Nat := 100

/-- Naturals extended with an infinite element, mirroring the Python code's
use of `float('inf')` for `self.last_id` and `self.max_id`. -/
inductive XNat where
  | fin (n : Nat)
  | inf
deriving DecidableEq, Repr, Inhabited

/-- The Python comparison `n >= x` against a possibly infinite `x`
(`message.id >= self.last_id`, `message.id >= self.max_id`). -/
def natGeX (n : Nat) : XNat → Bool
  | .fin m => m ≤ n
  | .inf => false

/-- The Python comparison `n <= x` against a possibly infinite `x`
(`message.id <= self.last_id`). -/
def natLeX (n : Nat) : XNat → Bool
  | .fin m => n ≤ m
  | .inf => true

/-- `min(x, k)` with a possibly infinite left side (`min(self.left, _MAX_CHUNK_SIZE)`). -/
def XNat.minNat : XNat → Nat → Nat
  | .fin n, k => min n k
  | .inf, k => k

/-- Subtraction of a natural from a possibly infinite value (budget bookkeeping). -/
def XNat.sub : XNat → Nat → XNat
  | .fin n, k => .fin (n - k)
  | .inf, _ => .inf

/-- `x > k` for possibly infinite `x` (`self.limit > 3000`). -/
def xGtNat : XNat → Nat → Bool
  | .fin n, k => k < n
  | .inf, _ => true

/-- Proposition form: `x ≤ n` (so `x` is finite and at most `n`). -/
def xLeNatP : XNat → Nat → Prop
  | .fin k, n => k ≤ n
  | .inf, _ => False

/-- Proposition form: `x < n` (so `x` is finite and below `n`). -/
def xLtNatP : XNat → Nat → Prop
  | .fin k, n => k < n
  | .inf, _ => False

/-- Proposition form: `n < x` (true for infinite `x`). -/
def natLtXP (n : Nat) : XNat → Prop
  | .fin k => n < k
  | .inf => True

/-- Proposition form: `n ≤ x` (true for infinite `x`). -/
def xGeNatP : XNat → Nat → Prop
  | .fin k, n => n ≤ k
  | .inf, _ => True

/-- Order on possibly infinite naturals. -/
def XNat.leP : XNat → XNat → Prop
  | .fin a, .fin b => a ≤ b
  | .inf, .fin _ => False
  | _, .inf => True

/-- Coarse category of a peer (`helpers._EntityType`). -/
inductive EntityType where
  | user | chat | channel
deriving DecidableEq, Repr, Inhabited

/-- A canonical, already-resolved peer: its marked identifier and coarse
category.  Entity resolution (`get_input_entity`, `get_peer_id`) is an
external collaborator, so callers pass peers already in this form. -/
structure Peer where
  id : Int
  ty : EntityType
deriving DecidableEq, Repr, Inhabited

/-- An input peer as placed inside requests: a concrete peer or
`InputPeerEmpty()`. -/
inductive InputPeer where
  | of (p : Peer)
  | empty
deriving DecidableEq, Repr, Inhabited

/-- Modelled from the spec: `classify(peer) -> {User, Chat, Channel}` is the
Entity Resolver's `helpers._entity_type`, whose source is not part of this
tree; a concrete peer reports its category, `InputPeerEmpty` has none. -/
def entityTypeOf : Option InputPeer → Option EntityType
  | some (.of p) => some p.ty
  | _ => none

/-- The fields of a raw message record that the iteration engine reads. -/
structure Message where
  id : Nat
  sender_id : Option Int
  peer_id : Int
  date : Nat
  input_chat : Option InputPeer
deriving DecidableEq, Repr, Inhabited

/-- A wire message slot: either `MessageEmpty` or an actual record. -/
inductive RawMessage where
  | empty (id : Nat)
  | mk (m : Message)
deriving DecidableEq, Repr, Inhabited

/-- The variant-independent response shape the engine reads: messages, an
optional `count`, and (for `SearchGlobal`) an optional `next_rate`.  The
`users`/`chats` lists only feed the transient entity map that decorates
produced items and carry no information the claims inspect. -/
structure Response where
  messages : List RawMessage
  count : Option Nat
  next_rate : Option Int
deriving DecidableEq, Repr, Inhabited

/-- A message filter: `InputMessagesFilterEmpty` or some non-empty filter
(identified by a tag). -/
inductive MsgFilter where
  | empty
  | nonEmpty (tag : Nat)
deriving DecidableEq, Repr, Inhabited

/-- The five request variants `_MessagesIter._init` can build. -/
inductive ReqTag where
  | searchGlobal | scheduledList | getReplies | search | getHistory
deriving DecidableEq, Repr, Inhabited

/-- A request descriptor: one tagged record holding the union of the fields
of `messages.SearchGlobal`, `messages.GetScheduledHistory`,
`messages.GetReplies`, `messages.Search` and `messages.GetHistory`; fields a
variant lacks stay at their defaults. -/
structure Request where
  tag : ReqTag
  peer : Option InputPeer
  q : String
  filter : MsgFilter
  max_date : Option Nat
  offset_date : Option Nat
  offset_rate : Int
  offset_peer : Option InputPeer
  offset_id : Nat
  add_offset : Int
  limit : Nat
  min_id : Nat
  max_id : Nat
  msg_id : Option Nat
  from_id : Option Peer
deriving DecidableEq, Repr, Inhabited

/-- An all-defaults request record, refined per variant by `buildRequest`. -/
def defaultRequest : Request :=
  { tag := .getHistory, peer := none, q := "", filter := .empty, max_date := none,
    offset_date := none, offset_rate := 0, offset_peer := none, offset_id := 0,
    add_offset := 0, limit := 0, min_id := 0, max_id := 0, msg_id := none,
    from_id := none }

/-- Caller parameters of `_MessagesIter` (`iter_messages` without `ids`). -/
structure MsgParams where
  entity : Option Peer
  offset_id : Nat
  min_id : Nat
  max_id : Nat
  from_user : Option Peer
  offset_date : Option Nat
  add_offset : Int
  filter : MsgFilter
  search : Option String
  reply_to : Option Nat
  scheduled : Bool
  limit : Option Int
  reverse : Bool
  wait_time : Option Nat
deriving DecidableEq, Repr, Inhabited

/-- Modelled from the spec: the base iterator contract (`RequestIter`, not in
this tree) normalises the caller limit — absent means unbounded, negative is
clamped to zero — before `_init` reads `self.limit`. -/
def selfLimit (p : MsgParams) : XNat :=
  match p.limit with
  | none => .inf
  | some v => .fin v.toNat

/-- Python truthiness of the `search` text (`not search`): absent or empty. -/
def searchTruthy : Option String → Bool
  | none => false
  | some s => !s.isEmpty

/-- The offset identifier computed by the range-emulation block: in reverse
mode `offset_id = max(offset_id, min_id)`, otherwise
`offset_id = max(offset_id, max_id)`. -/
def computedOffsetId (p : MsgParams) : Nat :=
  if p.reverse then max p.offset_id p.min_id else max p.offset_id p.max_id

/-- The construction-time "nothing to fetch" test: in reverse mode
`offset_id and max_id and max_id - offset_id <= 1`, otherwise
`offset_id and min_id and offset_id - min_id <= 1`. -/
def windowCollapsed (p : MsgParams) : Bool :=
  if p.reverse then
    decide (computedOffsetId p ≠ 0) && decide (p.max_id ≠ 0) &&
      decide ((p.max_id : Int) - (computedOffsetId p : Int) ≤ 1)
  else
    decide (computedOffsetId p ≠ 0) && decide (p.min_id ≠ 0) &&
      decide ((computedOffsetId p : Int) - (p.min_id : Int) ≤ 1)

/-- The offset identifier placed in the request after the reverse-mode
adjustment: `if offset_id: offset_id += 1 elif not offset_date: offset_id = 1`. -/
def requestOffsetId (p : MsgParams) : Nat :=
  let o := computedOffsetId p
  if p.reverse then
    if o ≠ 0 then o + 1
    else if p.offset_date = none then 1
    else 0
  else o

/-- `self.entity` after `_init`'s entity handling: the resolved peer, or
`InputPeerEmpty()` when a global search carries a `from_user` filter, or
`None` for a plain global search. -/
def selfEntity0 (p : MsgParams) : Option InputPeer :=
  match p.entity with
  | some pe => some (.of pe)
  | none => if p.from_user.isSome then some .empty else none

/-- Which of the five request variants `_init`'s `if`/`elif` chain selects. -/
def variantOf (p : MsgParams) : ReqTag :=
  if selfEntity0 p = none then .searchGlobal
  else if p.scheduled then .scheduledList
  else if p.reply_to.isSome then .getReplies
  else if p.search.isSome || decide (p.filter ≠ .empty) || p.from_user.isSome then .search
  else .getHistory

/-- `self.from_id` after `_init`: the resolved `from_user` id, except that the
`messages.Search` branch clears it when the filter is pushed server-side
(entity category other than user). -/
def selfFromId (p : MsgParams) : Option Int :=
  let fid := p.from_user.map Peer.id
  if variantOf p = .search ∧ p.from_user.isSome ∧ entityTypeOf (selfEntity0 p) ≠ some .user
  then none else fid

/-- The request `_init` constructs, with the field values of the selected
variant's constructor call. -/
def buildRequest (p : MsgParams) : Request :=
  let ent := selfEntity0 p
  let oid := requestOffsetId p
  match variantOf p with
  | .searchGlobal =>
    { defaultRequest with
      tag := .searchGlobal, q := p.search.getD "", filter := p.filter,
      max_date := p.offset_date, offset_rate := 0, offset_peer := some .empty,
      offset_id := oid, limit := 1 }
  | .scheduledList =>
    { defaultRequest with tag := .scheduledList, peer := ent }
  | .getReplies =>
    { defaultRequest with
      tag := .getReplies, peer := ent, msg_id := p.reply_to, offset_id := oid,
      offset_date := p.offset_date, add_offset := p.add_offset, limit := 1 }
  | .search =>
    let sentFrom := if entityTypeOf ent = some .user then none else p.from_user
    { defaultRequest with
      tag := .search, peer := ent, q := p.search.getD "", filter := p.filter,
      max_date := p.offset_date, offset_id := oid, add_offset := p.add_offset,
      limit := 0, from_id := sentFrom }
  | .getHistory =>
    { defaultRequest with
      tag := .getHistory, peer := ent, limit := 1, offset_date := p.offset_date,
      offset_id := oid, add_offset := p.add_offset }

/-- The issue-1124 workaround trigger: a `messages.Search` request whose
filter is non-empty, with an offset date, no (truthy) text query and no
offset identifier. -/
def workaroundFires (p : MsgParams) : Bool :=
  decide (variantOf p = .search) && decide (p.filter ≠ .empty) &&
    p.offset_date.isSome && !searchTruthy p.search &&
    decide (requestOffsetId p = 0)

/-- The request the inner one-item probe
`iter_messages(self.entity, 1, offset_date=offset_date)` sends: a plain
`messages.GetHistory` of limit 1 anchored at the date. -/
def innerProbeRequest (ent : Option InputPeer) (d : Option Nat) : Request :=
  { defaultRequest with
    tag := .getHistory, peer := ent, limit := 1, offset_date := d }

/-- The transport reply to the total-only probe issued when `limit <= 0`:
either `messages.MessagesNotModified` or a messages response. -/
inductive ProbeResult where
  | notModified (count : Nat)
  | msgs (r : Response)
deriving DecidableEq, Repr, Inhabited

/-- `self.total` as read off the probe reply: `result.count` for
`MessagesNotModified`, else `getattr(result, 'count', len(result.messages))`. -/
def totalOfProbe : ProbeResult → Nat
  | .notModified c => c
  | .msgs r => r.count.getD r.messages.length

/-- The environment `_init` draws on: the message (if any) the inner
workaround probe yields, and the transport reply to the `limit <= 0` probe. -/
structure Env where
  innerProbe : Option Message
  probe : ProbeResult
deriving DecidableEq, Repr, Inhabited

/-- The mutable state of a running `_MessagesIter` after `_init`. -/
structure ChunkState where
  reverse : Bool
  entity : Option InputPeer
  from_id : Option Int
  request : Request
  add_offset : Int
  max_id : XNat
  min_id : Nat
  last_id : XNat
  left : XNat
  buffer : List Message
  total : Option Nat
  wait_time : Nat
deriving DecidableEq, Repr, Inhabited

/-- How `_init` ends: a `ValueError`, a `StopAsyncIteration` before any
request (collapsed window, `total` untouched), a `StopAsyncIteration` after
the total probe, or a ready iterator state. -/
inductive InitOutcome where
  | invalidConfig (msg : String)
  | stopNoTotal
  | stopWithTotal (total : Nat)
  | ready (st : ChunkState)
deriving DecidableEq, Repr, Inhabited

/-- Result of `_init`: the transport requests it issued, in order, and how it
ended. -/
structure InitResult where
  requests : List Request
  outcome : InitOutcome
deriving DecidableEq, Repr, Inhabited

/-- `_MessagesIter._init`, line by line: the reverse-global guard, the range
emulation and collapse check, the reverse offset adjustment, variant
selection, the issue-1124 inner probe, the `limit <= 0` total probe, the
reverse `add_offset` bias, and the final cursor fields. -/
def initMessagesIter (p : MsgParams) (env : Env) : InitResult :=
  if p.entity = none ∧ p.reverse then
    { requests := [], outcome := .invalidConfig "Cannot reverse global search" }
  else if windowCollapsed p then
    { requests := [], outcome := .stopNoTotal }
  else
    let req0 := buildRequest p
    let req1 :=
      if workaroundFires p then
        match env.innerProbe with
        | some m => { req0 with offset_id := m.id + 1 }
        | none => req0
      else req0
    let probeReqs :=
      if workaroundFires p then [innerProbeRequest (selfEntity0 p) p.offset_date]
      else []
    if selfLimit p = .fin 0 then
      { requests := probeReqs ++ [req1],
        outcome := .stopWithTotal (totalOfProbe env.probe) }
    else
      let wt := p.wait_time.getD (if xGtNat (selfLimit p) 3000 then 1 else 0)
      let req2 :=
        if p.reverse then { req1 with add_offset := req1.add_offset - (maxChunkSize : Int) }
        else req1
      { requests := probeReqs,
        outcome := .ready {
          reverse := p.reverse,
          entity := selfEntity0 p,
          from_id := selfFromId p,
          request := req2,
          add_offset := p.add_offset,
          max_id := if p.reverse ∧ p.max_id = 0 then .inf else .fin p.max_id,
          min_id := p.min_id,
          last_id := if p.reverse then .fin 0 else .inf,
          left := selfLimit p,
          buffer := [],
          total := none,
          wait_time := wt } }

/-- The ready state of an `_init` result, when it produced one. -/
def readyState (res : InitResult) : Option ChunkState :=
  match res.outcome with
  | .ready st => some st
  | _ => none

/-- `_MessagesIter._message_in_range`: with no entity every message passes;
otherwise reverse mode rejects `id <= last_id or id >= max_id` and forward
mode rejects `id >= last_id or id <= min_id`. -/
def messageInRange (st : ChunkState) (m : Message) : Bool :=
  match st.entity with
  | none => true
  | some _ =>
    if st.reverse then !(natLeX m.id st.last_id || natGeX m.id st.max_id)
    else !(natGeX m.id st.last_id || decide (m.id ≤ st.min_id))

/-- The per-item filter `self.from_id and message.sender_id != self.from_id`
(with Python truthiness of the integer `from_id`). -/
def fromSkip (st : ChunkState) (m : Message) : Bool :=
  match st.from_id with
  | some f => decide (f ≠ 0) && decide (m.sender_id ≠ some f)
  | none => false

/-- The message loop of `_MessagesIter._load_next_chunk`: skip empty or
from-filtered messages, end the chunk early on the first out-of-range one,
otherwise record `last_id` and append to the buffer.  The second component
is the early-return flag. -/
def processMessages (st : ChunkState) : List RawMessage → ChunkState × Bool
  | [] => (st, false)
  | .empty _ :: rest => processMessages st rest
  | .mk m :: rest =>
    if fromSkip st m then processMessages st rest
    else if !messageInRange st m then (st, true)
    else
      processMessages
        { st with last_id := .fin m.id, buffer := st.buffer ++ [m] } rest

/-- `_MessagesIter._update_offset`: rewrite the request's offset identifier
to the last accepted message (plus one in reverse mode), clear `max_date` for
`messages.Search` or set `offset_date` otherwise, and carry the offset peer
and continuation rate forward for `messages.SearchGlobal`. -/
def updateOffset (st : ChunkState) (lastMessage : Message) (r : Response) :
    ChunkState :=
  let req :=
    { st.request with
      offset_id := if st.reverse then lastMessage.id + 1 else lastMessage.id }
  let req :=
    if req.tag = .search then { req with max_date := none }
    else { req with offset_date := some lastMessage.date }
  let req :=
    if req.tag = .searchGlobal then
      { req with
        offset_peer := some (lastMessage.input_chat.getD .empty),
        offset_rate := r.next_rate.getD 0 }
    else req
  { st with request := req }

/-- The request as mutated at the top of `_load_next_chunk` and then sent:
`limit = min(self.left, _MAX_CHUNK_SIZE)` and, in reverse mode on a short
chunk, `add_offset = self.add_offset - self.request.limit`. -/
def prepareRequest (st : ChunkState) : Request :=
  let lim := XNat.minNat st.left maxChunkSize
  let req := { st.request with limit := lim }
  if st.reverse && decide (lim ≠ maxChunkSize) then
    { req with add_offset := st.add_offset - (lim : Int) }
  else req

/-- One `_MessagesIter._load_next_chunk` step on a given transport response:
returns the new state and whether this was the last chunk (`True` returns). -/
def loadNextChunk (st : ChunkState) (r : Response) : ChunkState × Bool :=
  let st1 := { st with request := prepareRequest st }
  let st2 := { st1 with total := some (r.count.getD r.messages.length) }
  let msgs := if st2.reverse then r.messages.reverse else r.messages
  let pr := processMessages st2 msgs
  if pr.2 then (pr.1, true)
  else if r.messages.length < pr.1.request.limit then (pr.1, true)
  else
    match pr.1.buffer.getLast? with
    | some lastMsg => (updateOffset pr.1 lastMsg r, false)
    | none => (pr.1, true)

/-- Modelled from the spec: the generic drive loop of the base iterator
contract (`RequestIter`, whose source is not in this tree) — chunks are
fetched one at a time, the buffer is drained to the consumer between
fetches, the remaining budget `left` shrinks by exactly the number of items
appended, and iteration ends when a chunk flags itself as last or the budget
runs out.  Given the transport's responses in order, this returns the full
produced item sequence. -/
def runChunks (st : ChunkState) : List Response → List Message
  | [] => []
  | r :: rs =>
    let p := loadNextChunk st r
    if p.2 then p.1.buffer
    else if p.1.left.sub p.1.buffer.length = .fin 0 then p.1.buffer
    else
      p.1.buffer ++
        runChunks { p.1 with buffer := [], left := p.1.left.sub p.1.buffer.length } rs

/-- A transport-level service error (`errors` module). -/
inductive SvcError where
  | messageIdsEmpty
  | other (code : Nat)
deriving DecidableEq, Repr, Inhabited

/-- The reply shape of a `GetMessages` style call: either
`messages.MessagesNotModified` or a messages response. -/
inductive IdsResponse where
  | notModified (count : Nat)
  | messages (r : Response)
deriving DecidableEq, Repr, Inhabited

/-- Caller parameters of `_IDsIter` (`iter_messages` with explicit `ids`). -/
structure IdsParams where
  entity : Option Peer
  ids : List Nat
  reverse : Bool
  wait_time : Option Nat
deriving DecidableEq, Repr, Inhabited

/-- The mutable state of a running `_IDsIter` after `_init`. -/
structure IdsState where
  total : Nat
  ids : List Nat
  offset : Nat
  entity : Option InputPeer
  ty : Option EntityType
  wait_time : Nat
  buffer : List (Option Message)
deriving DecidableEq, Repr, Inhabited

/-- `_IDsIter._init`: record the total, reverse the id list if requested,
resolve the entity and its coarse category, and pick the inter-batch delay
(`self.limit` is `len(ids)` from the factory). -/
def initIdsIter (p : IdsParams) : IdsState :=
  { total := p.ids.length,
    ids := if p.reverse then p.ids.reverse else p.ids,
    offset := 0,
    entity := p.entity.map .of,
    ty := p.entity.map Peer.ty,
    wait_time := p.wait_time.getD (if p.ids.length > 300 then 10 else 0),
    buffer := [] }

/-- The peer identifier behind an input peer (`client._get_peer`). -/
def peerOfInput : InputPeer → Option Int
  | .of p => some p.id
  | .empty => none

/-- The slot appended for one returned raw message: an absent marker for a
`MessageEmpty` or for a peer mismatch against `from_id`, else the item. -/
def idsSlot (from_id : Option Int) : RawMessage → Option Message
  | .empty _ => none
  | .mk m =>
    match from_id with
    | some f => if m.peer_id ≠ f then none else some m
    | none => some m

/-- The reconciliation loop of `_IDsIter._load_next_chunk`, walking the
returned messages and appending one slot per returned message. -/
def idsAppendSlots (from_id : Option Int) (buffer : List (Option Message)) :
    List RawMessage → List (Option Message)
  | [] => buffer
  | rm :: rest => idsAppendSlots from_id (buffer ++ [idsSlot from_id rm]) rest

/-- The `from_id` used to validate the batch: never for channel-scoped
lookups, the resolved peer of the entity otherwise. -/
def idsChunkFromId (st : IdsState) : Option Int :=
  if st.ty = some .channel then none else st.entity.bind peerOfInput

/-- How one `_IDsIter._load_next_chunk` step ends. -/
inductive IdsStep where
  | stopIteration
  | err (e : SvcError)
  | ok (st : IdsState)
deriving DecidableEq, Repr, Inhabited

/-- One `_IDsIter._load_next_chunk` step on a given transport reply: slice
the next batch of at most 100 ids, stop when none remain; for a
channel-category entity a `MessageIdsEmptyError` is caught and replaced by a
dummy `MessagesNotModified(len(ids))`, while on any other entity category
transport errors propagate; a `MessagesNotModified` reply extends the buffer
with one absent marker per requested id, and a messages reply is walked by
the reconciliation loop. -/
def idsLoadNextChunk (st : IdsState) (tr : Except SvcError IdsResponse) :
    IdsStep :=
  let batch := (st.ids.drop st.offset).take maxChunkSize
  if batch.isEmpty then .stopIteration
  else
    let st := { st with offset := st.offset + maxChunkSize }
    if st.ty = some .channel then
      match tr with
      | .error .messageIdsEmpty =>
        .ok { st with buffer := st.buffer ++ batch.map (fun _ => none) }
      | .error e => .err e
      | .ok (.notModified _) =>
        .ok { st with buffer := st.buffer ++ batch.map (fun _ => none) }
      | .ok (.messages r) =>
        .ok { st with buffer := idsAppendSlots none st.buffer r.messages }
    else
      match tr with
      | .error e => .err e
      | .ok (.notModified _) =>
        .ok { st with buffer := st.buffer ++ batch.map (fun _ => none) }
      | .ok (.messages r) =>
        .ok { st with
              buffer := idsAppendSlots (st.entity.bind peerOfInput) st.buffer r.messages }

/-- The buffer of an id-lookup step, when it succeeded. -/
def idsStepBuffer : IdsStep → Option (List (Option Message))
  | .ok st => some st.buffer
  | _ => none

/-- Whether an init outcome is the construction-time `ValueError`. -/
def InitOutcome.isInvalidConfig : InitOutcome → Bool
  | .invalidConfig _ => true
  | _ => false

/-! Concrete inputs used by witnesses and counterexamples. -/

/-- A plain user peer. -/
def peerA : Peer := { id := 1, ty := .user }

/-- Baseline parameters: a plain history iteration over `peerA`, limit 10. -/
def pDef : MsgParams :=
  { entity := some peerA, offset_id := 0, min_id := 0, max_id := 0,
    from_user := none, offset_date := none, add_offset := 0, filter := .empty,
    search := none, reply_to := none, scheduled := false, limit := some 10,
    reverse := false, wait_time := none }

/-- An environment with no inner-probe message and a zero-count probe reply. -/
def env0 : Env := { innerProbe := none, probe := .notModified 0 }

/-- Forward window `min_id = 100`, `max_id = 102`: one admissible id (101). -/
def p102 : MsgParams := { pDef with min_id := 100, max_id := 102 }

/-- Forward window `min_id = 100`, `max_id = 101`: no admissible id. -/
def p101 : MsgParams := { pDef with min_id := 100, max_id := 101 }

/-- A message with id 101. -/
def m101 : Message :=
  { id := 101, sender_id := some 5, peer_id := 1, date := 50, input_chat := none }

/-- A response holding only message 101. -/
def r101 : Response := { messages := [.mk m101], count := some 7, next_rate := none }

/-- Baseline parameters with caller limit 0. -/
def p50 : MsgParams := { pDef with limit := some 0 }

/-- Environment whose probe reply reports count 42. -/
def env42 : Env := { innerProbe := none, probe := .notModified 42 }

/-- Caller limit 0 combined with a collapsed window (`min 5`, `max 6`). -/
def p5c : MsgParams := { pDef with limit := some 0, min_id := 5, max_id := 6 }

/-- Reverse traversal anchored at id 5 with caller skip 7 and limit 3. -/
def p7 : MsgParams :=
  { pDef with reverse := true, offset_id := 5, add_offset := 7, limit := some 3 }

/-- An empty response. -/
def rEmpty : Response := { messages := [], count := none, next_rate := none }

/-- A non-empty filter with an offset date, no text and no offset id. -/
def p8 : MsgParams :=
  { pDef with
    entity := some { id := 2, ty := .channel }, filter := .nonEmpty 3,
    offset_date := some 99 }

/-- The message the inner date probe yields for `p8`. -/
def m77 : Message :=
  { id := 77, sender_id := none, peer_id := 2, date := 99, input_chat := none }

/-- Environment for `p8`: the inner probe yields `m77`. -/
def env8 : Env := { innerProbe := some m77, probe := .notModified 0 }

/-- Global search (no peer) requested in reverse. -/
def pRevGlobal : MsgParams := { pDef with entity := none, reverse := true }

/-- Global search (no peer), forward, with `min_id = 100`. -/
def pG : MsgParams := { pDef with entity := none, min_id := 100 }

/-- A message with id 100 (equal to `pG`'s lower bound). -/
def m100 : Message :=
  { id := 100, sender_id := none, peer_id := 3, date := 9, input_chat := none }

/-- A response repeating message 100 twice. -/
def rG : Response := { messages := [.mk m100, .mk m100], count := none, next_rate := none }

/-- Channel-scoped id lookup for `[10, 11, 12]`. -/
def pI : IdsParams :=
  { entity := some { id := 7, ty := .channel }, ids := [10, 11, 12],
    reverse := false, wait_time := none }

/-- Message 10 of peer 7. -/
def m10 : Message := { id := 10, sender_id := none, peer_id := 7, date := 1, input_chat := none }

/-- Message 12 of peer 7. -/
def m12 : Message := { id := 12, sender_id := none, peer_id := 7, date := 2, input_chat := none }

/-- The reply returning only messages 10 and 12 (11 omitted). -/
def rI : Response := { messages := [.mk m10, .mk m12], count := none, next_rate := none }

/-- The same id lookup against a user-category peer. -/
def pIu : IdsParams := { pI with entity := some { id := 7, ty := .user } }

/-! Claim theorems. -/

/-- The request-variant precedence exactly as the specification words it:
(1) no target peer and no from-filter → GlobalSearch; (2) scheduled →
ScheduledList; (3) replyTo → ThreadReplies; (4) text query, non-empty filter
or from-filter → FilteredSearch; (5) otherwise PlainHistory. -/
def specVariant (hasPeer hasFrom scheduled hasReplyTo hasQuery filterNonEmpty : Bool) :
    ReqTag :=
  if !hasPeer && !hasFrom then .searchGlobal
  else if scheduled then .scheduledList
  else if hasReplyTo then .getReplies
  else if hasQuery || filterNonEmpty || hasFrom then .search
  else .getHistory

/-- C4: construction of a Message Range Iterator selects exactly one request
variant, in the precedence order (1) no peer and no from-filter →
GlobalSearch, (2) scheduled → ScheduledList, (3) replyTo → ThreadReplies,
(4) text query / non-empty filter / from-filter → FilteredSearch,
(5) otherwise PlainHistory; the built request carries that variant's tag. -/
theorem variant_selection_precedence (p : MsgParams) :
    variantOf p =
      specVariant p.entity.isSome p.from_user.isSome p.scheduled
        p.reply_to.isSome p.search.isSome (decide (p.filter ≠ .empty)) ∧
    (buildRequest p).tag = variantOf p := by
  constructor
  · obtain ⟨ent, oid, mn, mx, fu, od, ao, fl, se, rt, sc, li, rev, wt⟩ := p
    cases ent <;> cases fu <;> cases sc <;> cases rt <;> cases se <;> cases fl <;>
      simp [variantOf, specVariant, selfEntity0]
  · cases hv : variantOf p <;> simp [buildRequest, hv]

/-- C10: when the iterator was constructed without a target peer (global
search, `self.entity is None`), `_message_in_range` accepts every message
unconditionally, so neither the min/max bounds nor the `last_id` protection
is enforced. -/
theorem global_range_check_trivial (st : ChunkState) (m : Message)
    (h : st.entity = none) : messageInRange st m = true := by
  simp [messageInRange, h]

/-- C10 witness: a concrete global-search state accepts a concrete message. -/
theorem global_range_check_trivial_witness :
    messageInRange { (default : ChunkState) with entity := none } m100 = true :=
  global_range_check_trivial _ _ rfl

/-- C9 (amended): the `ValueError` is raised synchronously at construction,
before any request, when reverse traversal is combined with global search;
a collapsed offset window instead ends construction as a normal empty
iteration (`StopAsyncIteration`), also before any request, not as an error. -/
theorem init_error_and_collapse_behavior (p : MsgParams) (env : Env) :
    (p.entity = none → p.reverse = true →
      initMessagesIter p env =
        { requests := [], outcome := .invalidConfig "Cannot reverse global search" }) ∧
    (¬(p.entity = none ∧ p.reverse) → windowCollapsed p = true →
      initMessagesIter p env = { requests := [], outcome := .stopNoTotal }) := by
  constructor
  · intro h1 h2
    simp [initMessagesIter, h1, h2]
  · intro h1 h2
    simp [initMessagesIter, h1, h2]

/-- C9 witness: reverse global search errors with no request issued, and a
collapsed forward window (`min 100`, `max 101`) stops with no request. -/
theorem init_error_and_collapse_behavior_witness :
    initMessagesIter pRevGlobal env0 =
      { requests := [], outcome := .invalidConfig "Cannot reverse global search" } ∧
    initMessagesIter p101 env0 = { requests := [], outcome := .stopNoTotal } :=
  ⟨(init_error_and_collapse_behavior pRevGlobal env0).1 rfl rfl,
   (init_error_and_collapse_behavior p101 env0).2 (by decide) (by decide)⟩

/-- C9 counterexample: a collapsed window (`min 5`, `max 6`, forward, peer
given) does not raise the configuration error — construction ends as a
normal empty iteration instead. -/
theorem collapse_not_error_counterexample :
    windowCollapsed p5c = true ∧
    (initMessagesIter p5c env0).outcome.isInvalidConfig = false ∧
    (initMessagesIter p5c env0).outcome = .stopNoTotal := by decide

/-- C2 (amended): the construction-time "nothing to fetch" stop fires in
forward mode exactly when the computed offset id and `min_id` are both
non-zero and `offsetId - minId ≤ 1`, i.e. when the exclusive window holds
zero identifiers; the iterator is then immediately empty with no request. -/
theorem window_collapse_forward_zero_width (p : MsgParams) (env : Env)
    (hrev : p.reverse = false) (h1 : computedOffsetId p ≠ 0) (h2 : p.min_id ≠ 0)
    (h3 : (computedOffsetId p : Int) - (p.min_id : Int) ≤ 1) :
    initMessagesIter p env = { requests := [], outcome := .stopNoTotal } := by
  have hw : windowCollapsed p = true := by
    simp [windowCollapsed, hrev, h1, h2, h3]
  have hg : ¬(p.entity = none ∧ p.reverse) := by simp [hrev]
  simp [initMessagesIter, hg, hw]

/-- C2 witness: `min_id = 100`, `max_id = 101` (zero-width window) is
immediately empty with no request. -/
theorem window_collapse_forward_zero_width_witness :
    initMessagesIter p101 env0 = { requests := [], outcome := .stopNoTotal } :=
  window_collapse_forward_zero_width p101 env0 rfl (by decide) (by decide) (by decide)

/-- C2 counterexample: `min_id = 100`, `max_id = 102` (a one-identifier
window) is not immediately empty — construction succeeds and a chunk can
produce item 101. -/
theorem window_one_wide_not_empty_counterexample :
    p102.min_id = 100 ∧ p102.max_id = 102 ∧ p102.reverse = false ∧
    (readyState (initMessagesIter p102 env0)).map
        (fun st => (runChunks st [r101]).map Message.id) = some [101] := by decide

/-- C5 (amended): for a `limit ≤ 0` input whose window does not collapse at
construction and which does not trigger the filtered-search date workaround,
`_init` issues exactly one probe request (the constructed request itself),
sets `total` from the reply's count (falling back to the number of returned
messages), and stops with zero produced items. -/
theorem limit_nonpositive_single_probe (p : MsgParams) (env : Env)
    (hg : ¬(p.entity = none ∧ p.reverse)) (hw : windowCollapsed p = false)
    (hwa : workaroundFires p = false) (hl : selfLimit p = .fin 0) :
    initMessagesIter p env =
      { requests := [buildRequest p],
        outcome := .stopWithTotal (totalOfProbe env.probe) } := by
  simp [initMessagesIter, hg, hw, hwa, hl]

/-- C5 witness: limit 0 over a plain history issues one probe and reports
the probed total 42. -/
theorem limit_nonpositive_single_probe_witness :
    initMessagesIter p50 env42 =
      { requests := [buildRequest p50], outcome := .stopWithTotal 42 } :=
  limit_nonpositive_single_probe p50 env42 (by decide) (by decide) (by decide) rfl

/-- C5 counterexample: a `limit ≤ 0` input whose window collapses at
construction issues no probe request at all and leaves `total` unset. -/
theorem limit_nonpositive_collapsed_counterexample :
    selfLimit p5c = .fin 0 ∧
    initMessagesIter p5c env0 = { requests := [], outcome := .stopNoTotal } := by decide

/-- C8: with a non-empty filter, an offset date, no text query and no offset
identifier, `_init` first issues the one-item plain-history probe anchored at
that date and substitutes the obtained identifier (plus one) into the primary
`messages.Search` request before any search request is sent. -/
theorem filtered_search_date_probe (p : MsgParams) (env : Env) (d : Nat) (m : Message)
    (hent : p.entity.isSome = true) (hsch : p.scheduled = false)
    (hrt : p.reply_to = none) (hse : p.search = none) (hfil : p.filter ≠ .empty)
    (hdate : p.offset_date = some d) (hrev : p.reverse = false)
    (hoid : computedOffsetId p = 0) (hlim : selfLimit p ≠ .fin 0)
    (hm : env.innerProbe = some m) :
    (initMessagesIter p env).requests =
      [innerProbeRequest (selfEntity0 p) p.offset_date] ∧
    innerProbeRequest (selfEntity0 p) p.offset_date =
      { defaultRequest with
        tag := .getHistory, peer := selfEntity0 p, limit := 1,
        offset_date := some d } ∧
    (readyState (initMessagesIter p env)).map
        (fun st => (st.request.tag, st.request.offset_id)) =
      some (.search, m.id + 1) := by
  obtain ⟨pe, hpe⟩ := Option.isSome_iff_exists.mp hent
  have hvar : variantOf p = .search := by
    simp [variantOf, selfEntity0, hpe, hsch, hrt, hfil]
  have hroid : requestOffsetId p = 0 := by
    simp [requestOffsetId, hrev, hoid]
  have hwa : workaroundFires p = true := by
    simp [workaroundFires, hvar, hfil, hdate, hse, hroid, searchTruthy]
  have hw : windowCollapsed p = false := by
    simp [windowCollapsed, hrev, hoid]
  have hg : ¬(p.entity = none ∧ p.reverse) := by simp [hpe]
  refine ⟨?_, ?_, ?_⟩
  · simp [initMessagesIter, hg, hw, hwa, hlim, hm]
  · simp [innerProbeRequest, hdate]
  · simp [initMessagesIter, hg, hw, hwa, hlim, hm, readyState, hrev,
          buildRequest, hvar]

/-- C8 witness: the concrete filtered request `p8` issues the history probe
first and ends ready with a `messages.Search` request at offset `77 + 1`. -/
theorem filtered_search_date_probe_witness :
    (initMessagesIter p8 env8).requests =
      [innerProbeRequest (selfEntity0 p8) p8.offset_date] ∧
    innerProbeRequest (selfEntity0 p8) p8.offset_date =
      { defaultRequest with
        tag := .getHistory, peer := selfEntity0 p8, limit := 1,
        offset_date := some 99 } ∧
    (readyState (initMessagesIter p8 env8)).map
        (fun st => (st.request.tag, st.request.offset_id)) =
      some (.search, 78) :=
  filtered_search_date_probe p8 env8 99 m77 rfl rfl rfl rfl (by decide) rfl rfl
    rfl (by decide) rfl

/-- Helper: apart from the global-search and scheduled variants, the built
request carries the computed offset identifier and the caller skip count. -/
theorem buildRequest_offset_add (p : MsgParams)
    (h1 : variantOf p ≠ .searchGlobal) (h2 : variantOf p ≠ .scheduledList) :
    (buildRequest p).offset_id = requestOffsetId p ∧
    (buildRequest p).add_offset = p.add_offset := by
  cases hv : variantOf p <;> simp_all [buildRequest]

/-- Helper: `_update_offset` never touches the request's `add_offset` or
`limit`. -/
theorem updateOffset_request_stable (st : ChunkState) (m : Message) (r : Response) :
    (updateOffset st m r).request.add_offset = st.request.add_offset ∧
    (updateOffset st m r).request.limit = st.request.limit := by
  unfold updateOffset
  dsimp only
  split <;> split <;> (try split) <;> simp

/-- Helper: the message loop never touches the request. -/
theorem processMessages_request (msgs : List RawMessage) :
    ∀ st : ChunkState, (processMessages st msgs).1.request = st.request := by
  induction msgs with
  | nil => intro st; rfl
  | cons rm rest ih =>
    intro st
    cases rm with
    | empty i => exact ih st
    | mk m =>
      by_cases h1 : fromSkip st m
      · simpa [processMessages, h1] using ih st
      · by_cases h2 : messageInRange st m
        · simpa [processMessages, h1, h2] using
            ih { st with last_id := .fin m.id, buffer := st.buffer ++ [m] }
        · simp [processMessages, h1, h2]

/-- Helper: the tail of a chunk step (early return, short-chunk check,
offset continuation) keeps the request's `add_offset` and `limit`. -/
theorem chunkFinish_request_stable (st2 : ChunkState) (r : Response)
    (msgs : List RawMessage) :
    (let pr := processMessages st2 msgs
     let res : ChunkState × Bool :=
       if pr.2 then (pr.1, true)
       else if r.messages.length < pr.1.request.limit then (pr.1, true)
       else
         match pr.1.buffer.getLast? with
         | some lastMsg => (updateOffset pr.1 lastMsg r, false)
         | none => (pr.1, true)
     res.1.request.add_offset = st2.request.add_offset ∧
     res.1.request.limit = st2.request.limit) := by
  dsimp only
  rcases hpm : processMessages st2 msgs with ⟨st3, early⟩
  have hreq : st3.request = st2.request := by
    have h := processMessages_request msgs st2
    rw [hpm] at h
    exact h
  cases early with
  | true => simp [hreq]
  | false =>
    by_cases hlen : r.messages.length < st2.request.limit
    · simp [hreq, hlen]
    · cases hgl : st3.buffer.getLast? with
      | none => simp [hreq, hlen, hgl]
      | some lastMsg =>
        simp [hreq, hlen, hgl, (updateOffset_request_stable st3 lastMsg r).1,
              (updateOffset_request_stable st3 lastMsg r).2]

/-- Helper: a chunk step sends the prepared request, and its `add_offset`
and `limit` survive the step's continuation bookkeeping. -/
theorem loadNextChunk_request_stable (st : ChunkState) (r : Response) :
    (loadNextChunk st r).1.request.add_offset = (prepareRequest st).add_offset ∧
    (loadNextChunk st r).1.request.limit = (prepareRequest st).limit := by
  have h := chunkFinish_request_stable
    { st with
      request := prepareRequest st,
      total := some (r.count.getD r.messages.length) } r
    (if st.reverse then r.messages.reverse else r.messages)
  exact h

/-- C7 (amended): reverse traversal requests `offsetId + 1` (so the anchor is
included) whenever an anchor identifier is present or no date offset is used,
biases the server-side skip by `-_MAX_CHUNK_SIZE` at construction, and on the
final, short chunk re-bases the bias on the caller-specified skip minus that
chunk's size (`add_offset = addOffset - limit`), not back to the caller skip
itself. -/
theorem reverse_offset_bookkeeping (p : MsgParams) (env : Env) (r : Response) (n : Nat)
    (hrev : p.reverse = true) (hent : p.entity.isSome = true)
    (hanchor : computedOffsetId p ≠ 0 ∨ p.offset_date = none)
    (hcol : windowCollapsed p = false) (hsch : p.scheduled = false)
    (hlim : selfLimit p = .fin n) (hn0 : n ≠ 0) (hn : n < maxChunkSize) :
    (readyState (initMessagesIter p env)).map
        (fun st => (st.request.offset_id, st.request.add_offset)) =
      some (computedOffsetId p + 1, p.add_offset - (maxChunkSize : Int)) ∧
    (readyState (initMessagesIter p env)).map
        (fun st =>
          ((loadNextChunk st r).1.request.add_offset,
           (loadNextChunk st r).1.request.limit)) =
      some (p.add_offset - (n : Int), n) := by
  obtain ⟨pe, hpe⟩ := Option.isSome_iff_exists.mp hent
  have hg : ¬(p.entity = none ∧ p.reverse) := by simp [hpe]
  have hro : requestOffsetId p = computedOffsetId p + 1 := by
    rcases hanchor with h | h
    · simp [requestOffsetId, hrev, h]
    · by_cases h0 : computedOffsetId p = 0
      · simp [requestOffsetId, hrev, h0, h]
      · simp [requestOffsetId, hrev, h0]
  have hv1 : variantOf p ≠ .searchGlobal := by
    unfold variantOf
    rw [if_neg (by simp [selfEntity0, hpe])]
    split <;> (try split) <;> (try split) <;> simp
  have hv2 : variantOf p ≠ .scheduledList := by
    unfold variantOf
    rw [if_neg (by simp [selfEntity0, hpe]), if_neg (by simp [hsch])]
    split <;> (try split) <;> simp
  have hb := buildRequest_offset_add p hv1 hv2
  have hwa : workaroundFires p = false := by
    simp [workaroundFires, hro]
  have hl0 : selfLimit p ≠ .fin 0 := by simp [hlim, hn0]
  have hnn : n ≠ maxChunkSize := Nat.ne_of_lt hn
  have hmin : XNat.minNat (selfLimit p) maxChunkSize = n := by
    rw [hlim]
    exact Nat.min_eq_left (Nat.le_of_lt hn)
  have hready : ∃ st, readyState (initMessagesIter p env) = some st ∧
      st.reverse = true ∧ st.left = selfLimit p ∧ st.add_offset = p.add_offset ∧
      st.request.offset_id = computedOffsetId p + 1 ∧
      st.request.add_offset = p.add_offset - (maxChunkSize : Int) := by
    simp [initMessagesIter, hg, hcol, hwa, hl0, readyState, hrev, hpe, hb.1,
          hb.2, hro]
  obtain ⟨st, hst, hrev2, hleft, haddo, hoid2, haddr⟩ := hready
  constructor
  · rw [hst]
    simp [hoid2, haddr]
  · rw [hst]
    simp only [Option.map_some']
    rw [(loadNextChunk_request_stable st r).1, (loadNextChunk_request_stable st r).2]
    simp [prepareRequest, hrev2, hleft, hmin, hnn, haddo]

/-- C7 witness: reverse over anchor 5 with caller skip 7 and limit 3 requests
offset 6, biases `add_offset` to `7 - 100 = -93`, and on its (short, final)
chunk of size 3 sends `add_offset = 7 - 3 = 4` with limit 3. -/
theorem reverse_offset_bookkeeping_witness :
    (readyState (initMessagesIter p7 env0)).map
        (fun st => (st.request.offset_id, st.request.add_offset)) =
      some (computedOffsetId p7 + 1, p7.add_offset - (maxChunkSize : Int)) ∧
    (readyState (initMessagesIter p7 env0)).map
        (fun st =>
          ((loadNextChunk st rEmpty).1.request.add_offset,
           (loadNextChunk st rEmpty).1.request.limit)) =
      some (p7.add_offset - ((3 : Nat) : Int), 3) :=
  reverse_offset_bookkeeping p7 env0 rEmpty 3 rfl rfl (Or.inl (by decide))
    (by decide) rfl rfl (by decide) (by decide)

/-- C7 counterexample: on the final short chunk (size 3) with caller skip 7,
the sent `add_offset` is `7 - 3 = 4`, not the caller-specified skip 7. -/
theorem reverse_final_chunk_add_offset_counterexample :
    p7.add_offset = 7 ∧
    (readyState (initMessagesIter p7 env0)).map
        (fun st => (loadNextChunk st rEmpty).1.request.add_offset) = some 4 ∧
    (4 : Int) ≠ 7 := by decide

/-- Helper: the id-lookup reconciliation loop appends exactly one slot per
returned message, in order. -/
theorem idsAppendSlots_eq_map (f : Option Int) (msgs : List RawMessage) :
    ∀ buffer, idsAppendSlots f buffer msgs = buffer ++ msgs.map (idsSlot f) := by
  induction msgs with
  | nil => intro buffer; simp [idsAppendSlots]
  | cons rm rest ih =>
    intro buffer
    simp [idsAppendSlots, ih]

/-- C1 (amended): for each batch, the produced slots stand in 1:1
order-preserving correspondence with the messages the service returned —
each returned message yields exactly one slot (an item, or an absent marker
for an empty placeholder or foreign peer).  When the service omits an
invalid identifier entirely, correspondingly fewer slots are produced; no
absent marker is synthesized for the omitted position (an all-invalid
rejection or not-modified reply, by contrast, yields one absent marker per
requested identifier). -/
theorem ids_slots_follow_returned_messages (st : IdsState) (r : Response)
    (hb : ((st.ids.drop st.offset).take maxChunkSize).isEmpty = false) :
    idsLoadNextChunk st (.ok (.messages r)) =
      .ok { st with
            offset := st.offset + maxChunkSize,
            buffer := st.buffer ++ r.messages.map (idsSlot (idsChunkFromId st)) } ∧
    (st.buffer ++ r.messages.map (idsSlot (idsChunkFromId st))).length =
      st.buffer.length + r.messages.length := by
  constructor
  · by_cases hty : st.ty = some .channel <;>
      simp [idsLoadNextChunk, hb, hty, idsChunkFromId, idsAppendSlots_eq_map]
  · simp

/-- C1 witness: the channel lookup of `[10, 11, 12]` given back messages 10
and 12 appends exactly the two mapped slots. -/
theorem ids_slots_follow_returned_messages_witness :
    idsLoadNextChunk (initIdsIter pI) (.ok (.messages rI)) =
      .ok { initIdsIter pI with
            offset := (initIdsIter pI).offset + maxChunkSize,
            buffer := (initIdsIter pI).buffer ++
              rI.messages.map (idsSlot (idsChunkFromId (initIdsIter pI))) } ∧
    ((initIdsIter pI).buffer ++
        rI.messages.map (idsSlot (idsChunkFromId (initIdsIter pI)))).length =
      (initIdsIter pI).buffer.length + rI.messages.length :=
  ids_slots_follow_returned_messages (initIdsIter pI) rI (by decide)

/-- C1 counterexample: requesting `[10, 11, 12]` while the service returns
only messages 10 and 12 produces two slots, not three, and the second slot
is item 12 rather than an absent marker in position of the omitted id 11. -/
theorem ids_omitted_id_counterexample :
    pI.ids = [10, 11, 12] ∧
    idsStepBuffer (idsLoadNextChunk (initIdsIter pI) (.ok (.messages rI))) =
      some [some m10, some m12] ∧
    (idsStepBuffer (idsLoadNextChunk (initIdsIter pI) (.ok (.messages rI)))).map
        List.length = some 2 := by decide

/-- C6 (amended): for a channel-scoped batch, the service rejection
`MessageIdsEmptyError` is caught and converted locally into a same-shaped
all-absent result — one absent marker per requested identifier — instead of
surfacing as an error; for batches against any other entity category the
rejection propagates. -/
theorem channel_empty_ids_all_absent (st : IdsState)
    (hty : st.ty = some .channel)
    (hb : ((st.ids.drop st.offset).take maxChunkSize).isEmpty = false) :
    idsLoadNextChunk st (.error .messageIdsEmpty) =
      .ok { st with
            offset := st.offset + maxChunkSize,
            buffer := st.buffer ++
              ((st.ids.drop st.offset).take maxChunkSize).map (fun _ => none) } := by
  simp [idsLoadNextChunk, hb, hty]

/-- C6 witness: the channel batch `[10, 11, 12]` rejected as all-invalid
yields three absent markers. -/
theorem channel_empty_ids_all_absent_witness :
    idsLoadNextChunk (initIdsIter pI) (.error .messageIdsEmpty) =
      .ok { initIdsIter pI with
            offset := (initIdsIter pI).offset + maxChunkSize,
            buffer := (initIdsIter pI).buffer ++
              (((initIdsIter pI).ids.drop (initIdsIter pI).offset).take
                maxChunkSize).map (fun _ => none) } :=
  channel_empty_ids_all_absent (initIdsIter pI) rfl (by decide)

/-- C6 counterexample: the same all-invalid rejection on a user-category
batch is not caught — it surfaces to the caller as an error. -/
theorem nonchannel_empty_ids_error_counterexample :
    (initIdsIter pIu).ty = some .user ∧
    idsLoadNextChunk (initIdsIter pIu) (.error .messageIdsEmpty) =
      .err .messageIdsEmpty := by decide

/-! Order facts about possibly infinite naturals, used by the range
invariants. -/

theorem xLeP_refl (x : XNat) : XNat.leP x x := by
  cases x <;> simp [XNat.leP]

theorem xLeP_trans (x y z : XNat) (h1 : XNat.leP x y) (h2 : XNat.leP y z) :
    XNat.leP x z := by
  cases x <;> cases y <;> cases z <;> simp_all [XNat.leP] <;> omega

theorem natGeX_false_natLtXP (n : Nat) (x : XNat) (h : natGeX n x = false) :
    natLtXP n x := by
  cases x <;> simp_all [natGeX, natLtXP] <;> omega

theorem natLeX_false_xLtNatP (n : Nat) (x : XNat) (h : natLeX n x = false) :
    xLtNatP x n := by
  cases x <;> simp_all [natLeX, xLtNatP] <;> omega

theorem natLtXP_of_le (n : Nat) (x : XNat) (k : Nat) (h1 : natLtXP n x)
    (h2 : xLeNatP x k) : n < k := by
  cases x <;> simp_all [natLtXP, xLeNatP] <;> omega

theorem xGeNatP_lt (x : XNat) (k n : Nat) (h1 : xGeNatP x k) (h2 : xLtNatP x n) :
    k < n := by
  cases x <;> simp_all [xGeNatP, xLtNatP] <;> omega

theorem natLtXP_lt (a b : Nat) (x : XNat) (h1 : a < b) (h2 : natLtXP b x) :
    natLtXP a x := by
  cases x <;> simp_all [natLtXP] <;> omega

theorem xLtNatP_lt (x : XNat) (a b : Nat) (h1 : xLtNatP x a) (h2 : a < b) :
    xLtNatP x b := by
  cases x <;> simp_all [xLtNatP] <;> omega

theorem natLtXP_leP (n : Nat) (x y : XNat) (h1 : natLtXP n x)
    (h2 : XNat.leP x y) : natLtXP n y := by
  cases x <;> cases y <;> simp_all [natLtXP, XNat.leP] <;> omega

theorem xLtNatP_leP (x y : XNat) (n : Nat) (h1 : XNat.leP x y)
    (h2 : xLtNatP y n) : xLtNatP x n := by
  cases x <;> cases y <;> simp_all [xLtNatP, XNat.leP] <;> omega

theorem xLeP_fin_natLtXP (n : Nat) (x : XNat) (h : natLtXP n x) :
    XNat.leP (.fin n) x := by
  cases x <;> simp_all [natLtXP, XNat.leP] <;> omega

theorem xLeP_xLtNatP (x : XNat) (n : Nat) (h : xLtNatP x n) :
    XNat.leP x (.fin n) := by
  cases x <;> simp_all [xLtNatP, XNat.leP] <;> omega

/-- Forward-mode buffer invariant: identifiers strictly decreasing, each
strictly above `min_id`, and `last_id` at or below every buffered id. -/
def InvF (st : ChunkState) : Prop :=
  List.Pairwise (fun a b : Message => b.id < a.id) st.buffer ∧
  (∀ m ∈ st.buffer, st.min_id < m.id) ∧
  (∀ m ∈ st.buffer, xLeNatP st.last_id m.id)

/-- Reverse-mode buffer invariant: identifiers strictly increasing, each
strictly below `max_id`, and `last_id` at or above every buffered id. -/
def InvR (st : ChunkState) : Prop :=
  List.Pairwise (fun a b : Message => a.id < b.id) st.buffer ∧
  (∀ m ∈ st.buffer, natLtXP m.id st.max_id) ∧
  (∀ m ∈ st.buffer, xGeNatP st.last_id m.id)

/-- The message loop in forward mode with a peer: the invariant is
preserved, the bound fields stay fixed, `last_id` never increases, and every
newly buffered item lies strictly between `min_id` and the incoming
`last_id`. -/
theorem processMessages_forward (msgs : List RawMessage) :
    ∀ st : ChunkState, st.entity ≠ none → st.reverse = false → InvF st →
      InvF (processMessages st msgs).1 ∧
      (processMessages st msgs).1.min_id = st.min_id ∧
      (processMessages st msgs).1.entity = st.entity ∧
      (processMessages st msgs).1.reverse = st.reverse ∧
      XNat.leP (processMessages st msgs).1.last_id st.last_id ∧
      (∀ m ∈ (processMessages st msgs).1.buffer,
        m ∈ st.buffer ∨ (st.min_id < m.id ∧ natLtXP m.id st.last_id)) := by
  induction msgs with
  | nil =>
    intro st he hr hI
    exact ⟨hI, rfl, rfl, rfl, xLeP_refl _, fun m hm => Or.inl hm⟩
  | cons rm rest ih =>
    intro st he hr hI
    cases rm with
    | empty i => exact ih st he hr hI
    | mk m =>
      by_cases hskip : fromSkip st m
      · have heq : processMessages st (.mk m :: rest) = processMessages st rest := by
          simp [processMessages, hskip]
        rw [heq]
        exact ih st he hr hI
      · by_cases hin : messageInRange st m = true
        · have heq : processMessages st (.mk m :: rest) =
              processMessages
                { st with last_id := .fin m.id, buffer := st.buffer ++ [m] } rest := by
            simp [processMessages, hskip, hin]
          rw [heq]
          obtain ⟨pe, hpe⟩ : ∃ pe, st.entity = some pe := by
            cases hent : st.entity with
            | none => exact absurd hent he
            | some pe => exact ⟨pe, rfl⟩
          have hchk : natGeX m.id st.last_id = false ∧ st.min_id < m.id := by
            have h := hin
            simp [messageInRange, hpe, hr] at h
            exact h
          have hgt : st.min_id < m.id := hchk.2
          have hltP : natLtXP m.id st.last_id := natGeX_false_natLtXP _ _ hchk.1
          have hI2 : InvF { st with last_id := .fin m.id, buffer := st.buffer ++ [m] } := by
            refine ⟨?_, ?_, ?_⟩
            · refine List.pairwise_append.mpr ⟨hI.1, by simp, ?_⟩
              intro a ha b hb
              rw [List.mem_singleton.mp hb]
              exact natLtXP_of_le _ _ _ hltP (hI.2.2 a ha)
            · intro b hb
              rcases List.mem_append.mp hb with h | h
              · exact hI.2.1 b h
              · rw [List.mem_singleton.mp h]
                exact hgt
            · intro b hb
              rcases List.mem_append.mp hb with h | h
              · exact Nat.le_of_lt (natLtXP_of_le _ _ _ hltP (hI.2.2 b h))
              · rw [List.mem_singleton.mp h]
                exact Nat.le_refl _
          have hfacts := ih { st with last_id := .fin m.id, buffer := st.buffer ++ [m] }
            he hr hI2
          refine ⟨hfacts.1, hfacts.2.1, hfacts.2.2.1, hfacts.2.2.2.1,
            xLeP_trans _ _ _ hfacts.2.2.2.2.1 (xLeP_fin_natLtXP _ _ hltP), ?_⟩
          intro b hb
          rcases hfacts.2.2.2.2.2 b hb with hmem | hbnd
          · rcases List.mem_append.mp hmem with h | h
            · exact Or.inl h
            · rw [List.mem_singleton.mp h]
              exact Or.inr ⟨hgt, hltP⟩
          · exact Or.inr ⟨hbnd.1, natLtXP_lt _ _ _ hbnd.2 hltP⟩
        · have heq : processMessages st (.mk m :: rest) = (st, true) := by
            simp [processMessages, hskip, hin]
          rw [heq]
          exact ⟨hI, rfl, rfl, rfl, xLeP_refl _, fun b hb => Or.inl hb⟩

/-- The message loop in reverse mode with a peer: mirror image of the
forward lemma (`last_id` never decreases, new items lie strictly between the
incoming `last_id` and `max_id`). -/
theorem processMessages_reverse (msgs : List RawMessage) :
    ∀ st : ChunkState, st.entity ≠ none → st.reverse = true → InvR st →
      InvR (processMessages st msgs).1 ∧
      (processMessages st msgs).1.max_id = st.max_id ∧
      (processMessages st msgs).1.entity = st.entity ∧
      (processMessages st msgs).1.reverse = st.reverse ∧
      XNat.leP st.last_id (processMessages st msgs).1.last_id ∧
      (∀ m ∈ (processMessages st msgs).1.buffer,
        m ∈ st.buffer ∨ (natLtXP m.id st.max_id ∧ xLtNatP st.last_id m.id)) := by
  induction msgs with
  | nil =>
    intro st he hr hI
    exact ⟨hI, rfl, rfl, rfl, xLeP_refl _, fun m hm => Or.inl hm⟩
  | cons rm rest ih =>
    intro st he hr hI
    cases rm with
    | empty i => exact ih st he hr hI
    | mk m =>
      by_cases hskip : fromSkip st m
      · have heq : processMessages st (.mk m :: rest) = processMessages st rest := by
          simp [processMessages, hskip]
        rw [heq]
        exact ih st he hr hI
      · by_cases hin : messageInRange st m = true
        · have heq : processMessages st (.mk m :: rest) =
              processMessages
                { st with last_id := .fin m.id, buffer := st.buffer ++ [m] } rest := by
            simp [processMessages, hskip, hin]
          rw [heq]
          obtain ⟨pe, hpe⟩ : ∃ pe, st.entity = some pe := by
            cases hent : st.entity with
            | none => exact absurd hent he
            | some pe => exact ⟨pe, rfl⟩
          have hchk : natLeX m.id st.last_id = false ∧ natGeX m.id st.max_id = false := by
            have h := hin
            simp [messageInRange, hpe, hr] at h
            exact h
          have habove : xLtNatP st.last_id m.id := natLeX_false_xLtNatP _ _ hchk.1
          have hbelow : natLtXP m.id st.max_id := natGeX_false_natLtXP _ _ hchk.2
          have hI2 : InvR { st with last_id := .fin m.id, buffer := st.buffer ++ [m] } := by
            refine ⟨?_, ?_, ?_⟩
            · refine List.pairwise_append.mpr ⟨hI.1, by simp, ?_⟩
              intro a ha b hb
              rw [List.mem_singleton.mp hb]
              exact xGeNatP_lt _ _ _ (hI.2.2 a ha) habove
            · intro b hb
              rcases List.mem_append.mp hb with h | h
              · exact hI.2.1 b h
              · rw [List.mem_singleton.mp h]
                exact hbelow
            · intro b hb
              rcases List.mem_append.mp hb with h | h
              · exact Nat.le_of_lt (xGeNatP_lt _ _ _ (hI.2.2 b h) habove)
              · rw [List.mem_singleton.mp h]
                exact Nat.le_refl _
          have hfacts := ih { st with last_id := .fin m.id, buffer := st.buffer ++ [m] }
            he hr hI2
          refine ⟨hfacts.1, hfacts.2.1, hfacts.2.2.1, hfacts.2.2.2.1,
            xLeP_trans _ _ _ (xLeP_xLtNatP _ _ habove) hfacts.2.2.2.2.1, ?_⟩
          intro b hb
          rcases hfacts.2.2.2.2.2 b hb with hmem | hbnd
          · rcases List.mem_append.mp hmem with h | h
            · exact Or.inl h
            · rw [List.mem_singleton.mp h]
              exact Or.inr ⟨hbelow, habove⟩
          · exact Or.inr ⟨hbnd.1, xLtNatP_lt _ _ _ habove hbnd.2⟩
        · have heq : processMessages st (.mk m :: rest) = (st, true) := by
            simp [processMessages, hskip, hin]
          rw [heq]
          exact ⟨hI, rfl, rfl, rfl, xLeP_refl _, fun b hb => Or.inl hb⟩

/-- The finishing branches of a chunk step keep all range-relevant state:
forward version. -/
theorem chunkFinish_forward (st2 : ChunkState) (r : Response)
    (msgs : List RawMessage) (he : st2.entity ≠ none) (hr : st2.reverse = false)
    (hI : InvF st2) :
    (let pr := processMessages st2 msgs
     let res : ChunkState × Bool :=
       if pr.2 then (pr.1, true)
       else if r.messages.length < pr.1.request.limit then (pr.1, true)
       else
         match pr.1.buffer.getLast? with
         | some lastMsg => (updateOffset pr.1 lastMsg r, false)
         | none => (pr.1, true)
     InvF res.1 ∧ res.1.min_id = st2.min_id ∧ res.1.entity = st2.entity ∧
     res.1.reverse = st2.reverse ∧ XNat.leP res.1.last_id st2.last_id ∧
     (∀ m ∈ res.1.buffer,
       m ∈ st2.buffer ∨ (st2.min_id < m.id ∧ natLtXP m.id st2.last_id))) := by
  dsimp only
  rcases hpm : processMessages st2 msgs with ⟨st3, early⟩
  have hfacts := processMessages_forward msgs st2 he hr hI
  rw [hpm] at hfacts
  cases early with
  | true => exact hfacts
  | false =>
    by_cases hlen : r.messages.length < st3.request.limit
    · simp only [Bool.false_eq_true, if_false, if_pos hlen]
      exact hfacts
    · simp only [Bool.false_eq_true, if_false, if_neg hlen]
      cases hgl : st3.buffer.getLast? with
      | none =>
        simp only [hgl]
        exact hfacts
      | some lastMsg =>
        simp only [hgl]
        exact hfacts

/-- The finishing branches of a chunk step keep all range-relevant state:
reverse version. -/
theorem chunkFinish_reverse (st2 : ChunkState) (r : Response)
    (msgs : List RawMessage) (he : st2.entity ≠ none) (hr : st2.reverse = true)
    (hI : InvR st2) :
    (let pr := processMessages st2 msgs
     let res : ChunkState × Bool :=
       if pr.2 then (pr.1, true)
       else if r.messages.length < pr.1.request.limit then (pr.1, true)
       else
         match pr.1.buffer.getLast? with
         | some lastMsg => (updateOffset pr.1 lastMsg r, false)
         | none => (pr.1, true)
     InvR res.1 ∧ res.1.max_id = st2.max_id ∧ res.1.entity = st2.entity ∧
     res.1.reverse = st2.reverse ∧ XNat.leP st2.last_id res.1.last_id ∧
     (∀ m ∈ res.1.buffer,
       m ∈ st2.buffer ∨ (natLtXP m.id st2.max_id ∧ xLtNatP st2.last_id m.id))) := by
  dsimp only
  rcases hpm : processMessages st2 msgs with ⟨st3, early⟩
  have hfacts := processMessages_reverse msgs st2 he hr hI
  rw [hpm] at hfacts
  cases early with
  | true => exact hfacts
  | false =>
    by_cases hlen : r.messages.length < st3.request.limit
    · simp only [Bool.false_eq_true, if_false, if_pos hlen]
      exact hfacts
    · simp only [Bool.false_eq_true, if_false, if_neg hlen]
      cases hgl : st3.buffer.getLast? with
      | none =>
        simp only [hgl]
        exact hfacts
      | some lastMsg =>
        simp only [hgl]
        exact hfacts

/-- One forward chunk step with a peer preserves the invariant and bound
fields, never increases `last_id`, and buffers only items strictly between
`min_id` and the incoming `last_id`. -/
theorem loadNextChunk_forward (st : ChunkState) (r : Response)
    (he : st.entity ≠ none) (hr : st.reverse = false) (hI : InvF st) :
    InvF (loadNextChunk st r).1 ∧
    (loadNextChunk st r).1.min_id = st.min_id ∧
    (loadNextChunk st r).1.entity = st.entity ∧
    (loadNextChunk st r).1.reverse = st.reverse ∧
    XNat.leP (loadNextChunk st r).1.last_id st.last_id ∧
    (∀ m ∈ (loadNextChunk st r).1.buffer,
      m ∈ st.buffer ∨ (st.min_id < m.id ∧ natLtXP m.id st.last_id)) :=
  chunkFinish_forward
    { st with
      request := prepareRequest st,
      total := some (r.count.getD r.messages.length) } r
    (if st.reverse then r.messages.reverse else r.messages) he hr hI

/-- One reverse chunk step with a peer: mirror image. -/
theorem loadNextChunk_reverse (st : ChunkState) (r : Response)
    (he : st.entity ≠ none) (hr : st.reverse = true) (hI : InvR st) :
    InvR (loadNextChunk st r).1 ∧
    (loadNextChunk st r).1.max_id = st.max_id ∧
    (loadNextChunk st r).1.entity = st.entity ∧
    (loadNextChunk st r).1.reverse = st.reverse ∧
    XNat.leP st.last_id (loadNextChunk st r).1.last_id ∧
    (∀ m ∈ (loadNextChunk st r).1.buffer,
      m ∈ st.buffer ∨ (natLtXP m.id st.max_id ∧ xLtNatP st.last_id m.id)) :=
  chunkFinish_reverse
    { st with
      request := prepareRequest st,
      total := some (r.count.getD r.messages.length) } r
    (if st.reverse then r.messages.reverse else r.messages) he hr hI

/-- Forward traversal with a peer: the whole produced sequence is strictly
decreasing, and every produced identifier lies strictly between `min_id` and
the starting `last_id`. -/
theorem runChunks_forward (rs : List Response) :
    ∀ st : ChunkState, st.entity ≠ none → st.reverse = false → st.buffer = [] →
      List.Pairwise (fun a b : Message => b.id < a.id) (runChunks st rs) ∧
      (∀ m ∈ runChunks st rs, st.min_id < m.id ∧ natLtXP m.id st.last_id) := by
  induction rs with
  | nil =>
    intro st he hr hb
    simp [runChunks]
  | cons r rs ih =>
    intro st he hr hb
    have hI : InvF st := by
      refine ⟨?_, ?_, ?_⟩ <;> rw [hb] <;> simp
    have hc := loadNextChunk_forward st r he hr hI
    rcases hlk : loadNextChunk st r with ⟨st1, stop⟩
    rw [hlk] at hc
    have hnew : ∀ m ∈ st1.buffer, st.min_id < m.id ∧ natLtXP m.id st.last_id := by
      intro m hm
      rcases hc.2.2.2.2.2 m hm with h | h
      · rw [hb] at h
        cases h
      · exact h
    have hpair : List.Pairwise (fun a b : Message => b.id < a.id) st1.buffer :=
      hc.1.1
    show List.Pairwise _ (runChunks st (r :: rs)) ∧ _
    simp only [runChunks, hlk]
    cases stop with
    | true => exact ⟨hpair, hnew⟩
    | false =>
      by_cases hz : st1.left.sub st1.buffer.length = XNat.fin 0
      · simp only [Bool.false_eq_true, if_false, if_pos hz]
        exact ⟨hpair, hnew⟩
      · simp only [Bool.false_eq_true, if_false, if_neg hz]
        have htail := ih
          { st1 with buffer := [], left := st1.left.sub st1.buffer.length }
          (by
            show st1.entity ≠ none
            rw [hc.2.2.1]
            exact he)
          (by
            show st1.reverse = false
            rw [hc.2.2.2.1]
            exact hr)
          rfl
        refine ⟨List.pairwise_append.mpr ⟨hpair, htail.1, ?_⟩, ?_⟩
        · intro a ha b hbmem
          have hbb := htail.2 b hbmem
          have hb1 : natLtXP b.id st1.last_id := hbb.2
          have ha1 : xLeNatP st1.last_id a.id := hc.1.2.2 a ha
          exact natLtXP_of_le _ _ _ hb1 ha1
        · intro m hm
          rcases List.mem_append.mp hm with h | h
          · exact hnew m h
          · have hmm := htail.2 m h
            refine ⟨?_, ?_⟩
            · have : st1.min_id = st.min_id := hc.2.1
              rw [← this]
              exact hmm.1
            · exact natLtXP_leP _ _ _ hmm.2 hc.2.2.2.2.1

/-- Reverse traversal with a peer: the whole produced sequence is strictly
increasing, and every produced identifier lies strictly between the starting
`last_id` and `max_id`. -/
theorem runChunks_reverse (rs : List Response) :
    ∀ st : ChunkState, st.entity ≠ none → st.reverse = true → st.buffer = [] →
      List.Pairwise (fun a b : Message => a.id < b.id) (runChunks st rs) ∧
      (∀ m ∈ runChunks st rs, natLtXP m.id st.max_id ∧ xLtNatP st.last_id m.id) := by
  induction rs with
  | nil =>
    intro st he hr hb
    simp [runChunks]
  | cons r rs ih =>
    intro st he hr hb
    have hI : InvR st := by
      refine ⟨?_, ?_, ?_⟩ <;> rw [hb] <;> simp
    have hc := loadNextChunk_reverse st r he hr hI
    rcases hlk : loadNextChunk st r with ⟨st1, stop⟩
    rw [hlk] at hc
    have hnew : ∀ m ∈ st1.buffer, natLtXP m.id st.max_id ∧ xLtNatP st.last_id m.id := by
      intro m hm
      rcases hc.2.2.2.2.2 m hm with h | h
      · rw [hb] at h
        cases h
      · exact h
    have hpair : List.Pairwise (fun a b : Message => a.id < b.id) st1.buffer :=
      hc.1.1
    show List.Pairwise _ (runChunks st (r :: rs)) ∧ _
    simp only [runChunks, hlk]
    cases stop with
    | true => exact ⟨hpair, hnew⟩
    | false =>
      by_cases hz : st1.left.sub st1.buffer.length = XNat.fin 0
      · simp only [Bool.false_eq_true, if_false, if_pos hz]
        exact ⟨hpair, hnew⟩
      · simp only [Bool.false_eq_true, if_false, if_neg hz]
        have htail := ih
          { st1 with buffer := [], left := st1.left.sub st1.buffer.length }
          (by
            show st1.entity ≠ none
            rw [hc.2.2.1]
            exact he)
          (by
            show st1.reverse = true
            rw [hc.2.2.2.1]
            exact hr)
          rfl
        refine ⟨List.pairwise_append.mpr ⟨hpair, htail.1, ?_⟩, ?_⟩
        · intro a ha b hbmem
          have hbb := htail.2 b hbmem
          have hb1 : xLtNatP st1.last_id b.id := hbb.2
          have ha1 : xGeNatP st1.last_id a.id := hc.1.2.2 a ha
          exact xGeNatP_lt _ _ _ ha1 hb1
        · intro m hm
          rcases List.mem_append.mp hm with h | h
          · exact hnew m h
          · have hmm := htail.2 m h
            refine ⟨?_, ?_⟩
            · have : st1.max_id = st.max_id := hc.2.1
              rw [← this]
              exact hmm.1
            · exact xLtNatP_leP _ _ _ hc.2.2.2.2.1 hmm.2

/-- C3 (amended): for every Message Range Iterator traversal with a target
peer, the produced identifiers are strictly decreasing in forward mode with
`min_id < id` throughout (the `min_id` bound is exclusive), and strictly
increasing in reverse mode with `0 < id` and, when a `max_id` bound was
given, `id < max_id` (the `max_id` bound is exclusive).  Without a target
peer none of this is enforced. -/
theorem message_range_monotone_with_peer (p : MsgParams) (env : Env)
    (st : ChunkState) (rs : List Response) (hp : p.entity.isSome = true)
    (hready : readyState (initMessagesIter p env) = some st) :
    (p.reverse = false →
      List.Pairwise (fun a b : Message => b.id < a.id) (runChunks st rs) ∧
      ∀ m ∈ runChunks st rs, p.min_id < m.id) ∧
    (p.reverse = true →
      List.Pairwise (fun a b : Message => a.id < b.id) (runChunks st rs) ∧
      ∀ m ∈ runChunks st rs, 0 < m.id ∧ (p.max_id ≠ 0 → m.id < p.max_id)) := by
  obtain ⟨pe, hpe⟩ := Option.isSome_iff_exists.mp hp
  have hg : ¬(p.entity = none ∧ p.reverse) := by simp [hpe]
  by_cases hw : windowCollapsed p
  · simp [readyState, initMessagesIter, hg, hw] at hready
  · by_cases hl : selfLimit p = XNat.fin 0
    · simp [readyState, initMessagesIter, hg, hw, hl] at hready
    · simp only [readyState, initMessagesIter, hg, hw, hl, Bool.false_eq_true,
        if_false, if_neg hg, if_neg hl, Option.some.injEq] at hready
      have hent : selfEntity0 p ≠ none := by simp [selfEntity0, hpe]
      have hstrev : st.reverse = p.reverse := by rw [← hready]
      have hstent : st.entity = selfEntity0 p := by rw [← hready]
      have hstbuf : st.buffer = [] := by rw [← hready]
      have hstmin : st.min_id = p.min_id := by rw [← hready]
      have hstmax :
          st.max_id = (if p.reverse ∧ p.max_id = 0 then XNat.inf else XNat.fin p.max_id) := by
        rw [← hready]
      have hstlast : st.last_id = (if p.reverse then XNat.fin 0 else XNat.inf) := by
        rw [← hready]
      constructor
      · intro hrev
        have h := runChunks_forward rs st
          (by rw [hstent]; exact hent)
          (by rw [hstrev]; exact hrev) hstbuf
        refine ⟨h.1, fun m hm => ?_⟩
        have hmin := (h.2 m hm).1
        rw [hstmin] at hmin
        exact hmin
      · intro hrev
        have h := runChunks_reverse rs st
          (by rw [hstent]; exact hent)
          (by rw [hstrev]; exact hrev) hstbuf
        refine ⟨h.1, fun m hm => ?_⟩
        have hm2 := h.2 m hm
        constructor
        · have hlast : st.last_id = XNat.fin 0 := by
            rw [hstlast, hrev]
            rfl
          have hx := hm2.2
          rw [hlast] at hx
          exact hx
        · intro hmax
          have hmx : st.max_id = XNat.fin p.max_id := by
            rw [hstmax]
            simp [hmax]
          have hx := hm2.1
          rw [hmx] at hx
          exact hx

/-- The ready state reached by the `p102` construction. -/
def st102 : ChunkState := (readyState (initMessagesIter p102 env0)).getD default

/-- C3 witness: the forward traversal `p102` over the single response `r101`
produces a strictly decreasing sequence with all identifiers above 100. -/
theorem message_range_monotone_with_peer_witness :
    List.Pairwise (fun a b : Message => b.id < a.id) (runChunks st102 [r101]) ∧
    ∀ m ∈ runChunks st102 [r101], p102.min_id < m.id :=
  (message_range_monotone_with_peer p102 env0 st102 [r101] (by decide) (by decide)).1 rfl

/-- The ready state reached by the global-search construction `pG`. -/
def stG : ChunkState := (readyState (initMessagesIter pG env0)).getD default

/-- C3 counterexample: a global-search traversal (no target peer) with
`min_id = 100` produces `[100, 100]` — neither strictly decreasing nor
respecting the exclusive lower bound. -/
theorem message_range_global_counterexample :
    stG.entity = none ∧ pG.min_id = 100 ∧ pG.reverse = false ∧
    readyState (initMessagesIter pG env0) = some stG ∧
    (runChunks stG [rG]).map Message.id = [100, 100] ∧
    ¬ List.Pairwise (fun a b : Message => b.id < a.id) (runChunks stG [rG]) ∧
    ¬ (∀ m ∈ runChunks stG [rG], pG.min_id < m.id) := by decide

end Telethon
